import Mathlib

/-!
Verification of the decision pipeline in
`src/lib/services/enhanced_trex_ai_integration.py` (class `EnhancedTrexAI`).

The Python code is embedded shallowly:
* cards are integers (`ℤ`, with `%`/`/` matching Python semantics for a
  positive divisor);
* the loosely keyed request dictionary becomes a record of `Option` fields;
* response dictionaries become a record whose sometimes-absent keys are
  `Option` fields (`none` models "key not present");
* the randomized output of `_simulate_neural_network_inference` is an
  oracle parameter `probs : List ℚ` to `get_ai_move`; every theorem below
  holds for every value of that parameter;
* Python exceptions inside a stage are modelled by `Option`/`Except`
  results which the caller converts exactly where the source has a
  `try`/`except`.
-/

namespace TrexAI

/-- Models `_is_heart_card`: `26 <= card <= 38`. -/
def is_heart_card (card : ℤ) : Bool :=
  decide (26 ≤ card ∧ card ≤ 38)

/-- Models `_is_queen_card`: `card % 13 == 10`. -/
def is_queen_card (card : ℤ) : Bool :=
  decide (card % 13 = 10)

/-- Models `_is_king_of_hearts`: `card == 37`. -/
def is_king_of_hearts (card : ℤ) : Bool :=
  decide (card = 37)

/-- Models `_is_diamond_card`: `13 <= card <= 25`. -/
def is_diamond_card (card : ℤ) : Bool :=
  decide (13 ≤ card ∧ card ≤ 25)

/-- The rank used throughout the source: `card % 13`. -/
def rank (card : ℤ) : ℤ := card % 13

/-- Python `str.lower()` for the ASCII mode strings this pipeline compares:
maps `Char.toLower` over the characters (the definition of
`String.toLower`, restated so that it reduces inside the kernel). -/
def lowercase (s : String) : String :=
  String.mk (s.data.map Char.toLower)

/-- Models `_is_penalty_card`: lowercases the mode and dispatches. -/
def is_penalty_card (card : ℤ) (game_mode : String) : Bool :=
  let gm := lowercase game_mode
  if gm = "hearts" then is_heart_card card
  else if gm = "queens" then is_queen_card card
  else if gm = "king_of_hearts" then is_king_of_hearts card
  else if gm = "diamonds" then is_diamond_card card
  else false

/-- Models `_classify_position`; the source ignores `player_position`. -/
def classify_position (_player_position : ℤ) (cards_played : ℕ) : String :=
  if cards_played ≤ 1 then "early_position"
  else if cards_played ≥ 3 then "late_position"
  else "middle_position"

/-- Models `_classify_game_phase`. -/
def classify_game_phase (trick_number : ℤ) : String :=
  if trick_number ≤ 4 then "early_game"
  else if trick_number ≤ 9 then "mid_game"
  else "end_game"

/-- Models `_plan_future_tricks`: one advisory string by hand size. -/
def plan_future_tricks (hand_size : ℕ) : List String :=
  if 8 < hand_size then ["Early game: Establish card knowledge"]
  else if 4 < hand_size then ["Mid game: Position for endgame"]
  else ["End game: Execute optimal sequence"]

/-- The result record of `_analyze_remaining_cards`. -/
structure CardCounting where
  total_remaining : ℕ
  hearts_remaining : ℕ
  queens_remaining : ℕ
  high_cards_remaining : ℕ
deriving DecidableEq

/-- The 52-card deck `set(range(52))`. -/
def all_cards : List ℤ := (List.range 52).map (fun n => (n : ℤ))

/-- Models `_analyze_remaining_cards`: the remaining cards are the full deck
minus the (de-duplicated) history set. -/
def analyze_remaining_cards (history : List ℤ) : CardCounting :=
  let remaining := all_cards.filter (fun c => !(history.contains c))
  { total_remaining := remaining.length
    hearts_remaining := (remaining.filter (fun c => is_heart_card c)).length
    queens_remaining := (remaining.filter (fun c => is_queen_card c)).length
    high_cards_remaining := (remaining.filter (fun c => decide (9 ≤ c % 13))).length }

/-- The raw request dictionary of `get_ai_move`; a `none` field models a key
that is absent from the dictionary.  The `penalty_cards_taken` key is copied
by the source but never read afterwards, so it is not modelled. -/
structure RawRequest where
  player_cards : Option (List ℤ) := none
  valid_cards : Option (List ℤ) := none
  game_mode : Option String := none
  current_player : Option ℤ := none
  played_cards : Option (List ℤ) := none
  tricks_won : Option ℤ := none
  hearts_broken : Option Bool := none
  player_position : Option ℤ := none
  round_number : Option ℤ := none
  trick_number : Option ℤ := none
  lead_suit : Option String := none
  scores : Option (List ℤ) := none
  cards_played_history : Option (List ℤ) := none
  trump_suit : Option String := none
deriving DecidableEq

/-- The `required_fields` list of `_process_enhanced_game_state`. -/
def required_fields : List String :=
  ["player_cards", "valid_cards", "game_mode", "current_player"]

/-- Whether a named required field is absent from the request
(`field not in game_state`). -/
def missingField (gs : RawRequest) (f : String) : Bool :=
  if f = "player_cards" then gs.player_cards.isNone
  else if f = "valid_cards" then gs.valid_cards.isNone
  else if f = "game_mode" then gs.game_mode.isNone
  else if f = "current_player" then gs.current_player.isNone
  else false

/-- The first missing required field, in the order of `required_fields` —
exactly the field whose name the source's validation loop reports. -/
def firstMissing (gs : RawRequest) : Option String :=
  required_fields.find? (missingField gs)

/-- The processed dictionary built by `_process_enhanced_game_state` on
success. -/
structure ProcessedState where
  player_cards : List ℤ
  valid_cards : List ℤ
  game_mode : String
  played_cards : List ℤ
  current_player : ℤ
  tricks_won : ℤ
  hearts_broken : Bool
  player_position : ℤ
  round_number : ℤ
  trick_number : ℤ
  lead_suit : Option String
  scores : List ℤ
  cards_played_history : List ℤ
  trump_suit : Option String
  hand_size : ℕ
  cards_remaining : ℤ
  position_type : String
  game_phase : String
deriving DecidableEq

/-- Result of `_process_enhanced_game_state`: either
`{'valid': False, 'error': ...}` or the processed state. -/
inductive ValidationResult where
  | invalid (error : String)
  | ok (state : ProcessedState)
deriving DecidableEq

/-- Models `_process_enhanced_game_state`.  The required-field loop returns
the first missing field; afterwards required fields are read directly and
optional fields through `.get` with the source's defaults (the source also
reads `game_mode`/`current_player` through `.get`, unreachable defaults
`"kingdom"`/`0`). -/
def process_enhanced_game_state (gs : RawRequest) : ValidationResult :=
  match firstMissing gs with
  | some f => ValidationResult.invalid ("Missing required field: " ++ f)
  | none =>
    let player_cards := gs.player_cards.getD []
    let valid_cards := gs.valid_cards.getD []
    let game_mode := gs.game_mode.getD "kingdom"
    let played_cards := gs.played_cards.getD []
    let history := gs.cards_played_history.getD []
    let player_position := gs.player_position.getD 1
    let trick_number := gs.trick_number.getD 1
    ValidationResult.ok
      { player_cards := player_cards
        valid_cards := valid_cards
        game_mode := game_mode
        played_cards := played_cards
        current_player := gs.current_player.getD 0
        tricks_won := gs.tricks_won.getD 0
        hearts_broken := gs.hearts_broken.getD false
        player_position := player_position
        round_number := gs.round_number.getD 1
        trick_number := trick_number
        lead_suit := gs.lead_suit
        scores := gs.scores.getD [0, 0, 0, 0]
        cards_played_history := history
        trump_suit := gs.trump_suit
        hand_size := player_cards.length
        cards_remaining := 52 - (history.length : ℤ)
        position_type := classify_position player_position played_cards.length
        game_phase := classify_game_phase trick_number }

/-- Models `_assess_hearts_risk`.  The source compares
`len(heart_cards) >= len(valid_cards) * 0.7` in IEEE doubles; for every list
size this pipeline can see (at most 52 cards) that float comparison
coincides with the exact comparison `10 * hearts ≥ 7 * n` used here. -/
def assess_hearts_risk (valid_cards : List ℤ) : String :=
  let heart_cards := valid_cards.filter (fun c => is_heart_card c)
  if 7 * valid_cards.length ≤ 10 * heart_cards.length then "high"
  else if 0 < heart_cards.length then "medium"
  else "low"

/-- Models `_assess_queens_risk`. -/
def assess_queens_risk (valid_cards : List ℤ) : String :=
  let queen_cards := valid_cards.filter (fun c => is_queen_card c)
  if queen_cards = [] then "low" else "high"

/-- Models `_assess_king_hearts_risk`. -/
def assess_king_hearts_risk (valid_cards : List ℤ) : String :=
  let king_hearts := valid_cards.filter (fun c => is_king_of_hearts c)
  if king_hearts = [] then "low" else "high"

/-- Models `_assess_diamonds_risk`; the `0.5` threshold is exact in floats,
so `len(d) >= len(valid) * 0.5` is exactly `valid.length ≤ 2 * d.length`. -/
def assess_diamonds_risk (valid_cards : List ℤ) : String :=
  let diamond_cards := valid_cards.filter (fun c => is_diamond_card c)
  if valid_cards.length ≤ 2 * diamond_cards.length then "high"
  else if 0 < diamond_cards.length then "medium"
  else "low"

/-- The strategic-context dictionary of `_analyze_strategic_context`.  The
source never stores a `position_type` key in it (see
`generate_strategic_reasoning`), and `opponent_analysis` stays the empty
dictionary, so it is not modelled. -/
structure StrategicContext where
  risk_level : String
  strategy : String
  position_advantage : String
  penalty_risk : String
  card_counting : CardCounting
  multi_trick_planning : List String
deriving DecidableEq

/-- Models `_analyze_strategic_context`. -/
def analyze_strategic_context (gs : ProcessedState) : StrategicContext :=
  let position_type := classify_position gs.player_position gs.played_cards.length
  let strategy :=
    if position_type = "early_position" then "conservative"
    else if position_type = "late_position" then "informed"
    else "balanced"
  let risk_level := if position_type = "early_position" then "low" else "medium"
  let position_advantage := if position_type = "late_position" then "high" else "neutral"
  let game_mode := lowercase gs.game_mode
  let penalty_risk :=
    if game_mode = "hearts" then assess_hearts_risk gs.valid_cards
    else if game_mode = "queens" then assess_queens_risk gs.valid_cards
    else if game_mode = "king_of_hearts" then assess_king_hearts_risk gs.valid_cards
    else if game_mode = "diamonds" then assess_diamonds_risk gs.valid_cards
    else "low"
  { risk_level := risk_level
    strategy := strategy
    position_advantage := position_advantage
    penalty_risk := penalty_risk
    card_counting := analyze_remaining_cards gs.cards_played_history
    multi_trick_planning := plan_future_tricks gs.player_cards.length }

/-- The mode list of `_prepare_neural_network_input`. -/
def game_modes_list : List String :=
  ["kingdom", "hearts", "queens", "diamonds", "king_of_hearts"]

/-- The `risk_levels` dictionary lookup with default `0.5`. -/
def risk_level_to_scalar (risk : String) : ℚ :=
  if risk = "low" then 0
  else if risk = "medium" then 1/2
  else if risk = "high" then 1
  else 1/2

/-- Models `_prepare_neural_network_input`: the 12 real features followed by
zero padding (or truncation) to 128 entries. -/
def prepare_neural_network_input (gs : ProcessedState) (ctx : StrategicContext) :
    List ℚ :=
  let base : List ℚ :=
    [(gs.player_cards.length : ℚ) / 13, (gs.tricks_won : ℚ) / 13,
     (gs.trick_number : ℚ) / 13, (gs.played_cards.length : ℚ) / 4]
  let mode_encoding : List ℚ :=
    game_modes_list.map (fun mode => if lowercase gs.game_mode = mode then 1 else 0)
  let position_type := classify_position gs.player_position gs.played_cards.length
  let position_encoding : List ℚ :=
    [if position_type = "early_position" then 1 else 0,
     if position_type = "late_position" then 1 else 0]
  let features :=
    base ++ mode_encoding ++ [risk_level_to_scalar ctx.risk_level] ++ position_encoding
  if features.length < 128 then features ++ List.replicate (128 - features.length) 0
  else features.take 128

/-- One step of Python `min(..., key=f)`: the accumulator is replaced only on
a strictly smaller key, so the first minimal element wins. -/
def minFoldStep (f : ℤ → ℤ) (acc c : ℤ) : ℤ :=
  if f c < f acc then c else acc

/-- One step of Python `max(..., key=f)`: replaced only on a strictly larger
key, so the first maximal element wins. -/
def maxFoldStep (f : ℤ → ℤ) (acc c : ℤ) : ℤ :=
  if f acc < f c then c else acc

def minFold (f : ℤ → ℤ) (x : ℤ) (xs : List ℤ) : ℤ :=
  xs.foldl (minFoldStep f) x

def maxFold (f : ℤ → ℤ) (x : ℤ) (xs : List ℤ) : ℤ :=
  xs.foldl (maxFoldStep f) x

/-- Python `min(cards, key=lambda c: c % 13)`; `none` models the `ValueError`
raised on an empty list. -/
def minByRank : List ℤ → Option ℤ
  | [] => none
  | x :: xs => some (minFold rank x xs)

/-- Python `max(cards, key=lambda c: c % 13)`. -/
def maxByRank : List ℤ → Option ℤ
  | [] => none
  | x :: xs => some (maxFold rank x xs)

/-- The comparison used by `sorted(valid_cards, key=lambda c: c % 13)`. -/
def rankLE (a b : ℤ) : Prop := a % 13 ≤ b % 13

instance : DecidableRel rankLE := fun a b =>
  inferInstanceAs (Decidable (a % 13 ≤ b % 13))

instance : IsTotal ℤ rankLE := ⟨fun a b => le_total (a % 13) (b % 13)⟩

instance : IsTrans ℤ rankLE := ⟨fun _ _ _ h1 h2 => le_trans h1 h2⟩

/-- Python `sorted(cards, key=lambda c: c % 13)`: the stable ascending sort
by rank (insertion sort with a non-strict comparison is stable, like
Python's sort). -/
def sortByRank (cards : List ℤ) : List ℤ :=
  List.insertionSort rankLE cards

/-- Models `_select_conservative_card`. -/
def select_conservative_card (valid_cards : List ℤ) (game_mode : String) :
    Option ℤ :=
  let safe_cards := valid_cards.filter (fun c => !(is_penalty_card c game_mode))
  if safe_cards ≠ [] then minByRank safe_cards
  else minByRank valid_cards

/-- The penalty-avoidance mode list of `_select_balanced_card`. -/
def penalty_modes : List String :=
  ["hearts", "queens", "king_of_hearts", "diamonds"]

/-- Models `_select_balanced_card`; `l[k]?` models Python indexing (`none` is
the `IndexError` case, possible only on an empty list). -/
def select_balanced_card (valid_cards : List ℤ) (game_mode : String) :
    Option ℤ :=
  let gm := lowercase game_mode
  if gm ∈ penalty_modes then
    let safe_cards := valid_cards.filter (fun c => !(is_penalty_card c gm))
    if safe_cards ≠ [] then safe_cards[safe_cards.length / 2]?
    else
      let sorted_cards := sortByRank valid_cards
      sorted_cards[sorted_cards.length / 2]?
  else
    let sorted_cards := sortByRank valid_cards
    sorted_cards[sorted_cards.length / 2]?

/-- Models `_select_informed_card` (the `strategic_context` argument is
unused in the source). -/
def select_informed_card (valid_cards played_cards : List ℤ)
    (game_mode : String) : Option ℤ :=
  if 2 ≤ played_cards.length then
    let safe_cards := valid_cards.filter (fun c => !(is_penalty_card c game_mode))
    if safe_cards ≠ [] then maxByRank safe_cards
    else minByRank valid_cards
  else select_balanced_card valid_cards game_mode

/-- `np.argmax`: index of the first occurrence of the maximum; `none` models
the `ValueError` on an empty array. -/
def argmax : List ℚ → Option ℕ
  | [] => none
  | p :: ps =>
    let m := ps.foldl (fun a b => if a < b then b else a) p
    some ((p :: ps).findIdx (fun x => decide (x = m)))

/-- A response dictionary; `none` models an absent key. -/
structure Response where
  success : Bool
  error : Option String
  best_card : Option ℤ
  confidence : Option ℚ
  reasoning : Option String
  model_used : Option String
  strategic_context : Option StrategicContext
  performance_level : Option String
  decision_type : Option String
deriving DecidableEq

/-- Models `_create_error_response`: note that no `decision_type`,
`strategic_context` or `performance_level` key is produced. -/
def create_error_response (error_message : String) : Response :=
  { success := false
    error := some error_message
    best_card := some 0
    confidence := some 0
    reasoning := some ("Error: " ++ error_message)
    model_used := some ("Error Handler")
    strategic_context := none
    performance_level := none
    decision_type := none }

/-- The internal `{'success': False, 'error': ...}` dictionaries returned by
`_get_elite_ai_decision`; only the `success` flag is ever read by the
caller. -/
def elite_failure (msg : String) : Response :=
  { success := false
    error := some msg
    best_card := none
    confidence := none
    reasoning := none
    model_used := none
    strategic_context := none
    performance_level := none
    decision_type := none }

/-- Models `_generate_strategic_reasoning`.  The source reads
`strategic_context['position_type']`, a key that `_analyze_strategic_context`
never stores, so every call raises `KeyError` before a string is produced;
the embedding returns that failure (its message is never observed: the
caller's `except` only prints it). -/
def generate_strategic_reasoning (_card : ℤ) (_gs : ProcessedState)
    (_ctx : StrategicContext) : Except String String :=
  Except.error "KeyError: position_type"

/-- The mutable state of the `EnhancedTrexAI` object that the decision
pipeline reads or writes: the model flag and the two advisory counters.
(`strategic_memory` and `penalty_tracker` are written at construction and
never read.) -/
structure EnhancedTrexAI where
  model_loaded : Bool
  decisions_made : ℕ
  confidence_total : ℚ
deriving DecidableEq

/-- Models `_get_elite_ai_decision`.  `probs` is the randomized output of
`_simulate_neural_network_inference` (one entry per valid card in real runs;
the theorems hold for every list).  When `model_loaded` is set the loader
has stored a primary model, so the `next(...)` lookup succeeds. -/
def get_elite_ai_decision (st : EnhancedTrexAI) (probs : List ℚ)
    (gs : ProcessedState) (ctx : StrategicContext) :
    Response × EnhancedTrexAI :=
  if !st.model_loaded then (elite_failure ("No elite models loaded"), st)
  else
    let _nn_input := prepare_neural_network_input gs ctx
    match argmax probs with
    | none => (elite_failure ("Elite AI decision failed"), st)
    | some best_card_idx =>
      match gs.valid_cards[best_card_idx]? with
      | none => (elite_failure ("Elite AI decision failed"), st)
      | some best_card =>
        let confidence := probs.getD best_card_idx 0
        match generate_strategic_reasoning best_card gs ctx with
        | Except.error _ => (elite_failure ("Elite AI decision failed"), st)
        | Except.ok reasoning =>
          ({ success := true
             error := none
             best_card := some best_card
             confidence := some confidence
             reasoning := some reasoning
             model_used := some ("Enhanced Neural Network (Generation 100)")
             strategic_context := some ctx
             performance_level := some ("90% human")
             decision_type := some ("neural_network") },
           { st with confidence_total := st.confidence_total + confidence })

/-- Models `_get_enhanced_fallback_decision`. -/
def get_enhanced_fallback_decision (st : EnhancedTrexAI) (gs : ProcessedState)
    (ctx : StrategicContext) : Response × EnhancedTrexAI :=
  let valid_cards := gs.valid_cards
  if valid_cards = [] then (create_error_response ("No valid cards"), st)
  else
    let position_type := classify_position gs.player_position gs.played_cards.length
    let best_card? :=
      if ctx.strategy = "conservative" then
        select_conservative_card valid_cards gs.game_mode
      else if ctx.strategy = "informed" then
        select_informed_card valid_cards gs.played_cards gs.game_mode
      else select_balanced_card valid_cards gs.game_mode
    match best_card? with
    | none =>
      -- unreachable for a non-empty valid-card list (proved below); in the
      -- source an IndexError here would be caught by get_ai_move's handler
      (create_error_response ("list index out of range"), st)
    | some best_card =>
      let confidence : ℚ :=
        min (85/100 : ℚ)
          (65/100 + (if ctx.position_advantage = "high" then 2/10 else 0))
      let reasoning :=
        "Strategic " ++ ctx.strategy ++ " play based on " ++ position_type ++
          " position"
      ({ success := true
         error := none
         best_card := some best_card
         confidence := some confidence
         reasoning := some reasoning
         model_used := some ("Enhanced Strategic Rules")
         strategic_context := some ctx
         performance_level := some ("70% human")
         decision_type := some ("strategic_fallback") },
       { st with confidence_total := st.confidence_total + confidence })

/-- Models `get_ai_move`: increments `decisions_made` first, validates, and
on failure of validation (or of the elite path) degrades exactly as the
source does. -/
def get_ai_move (st : EnhancedTrexAI) (gs : RawRequest) (probs : List ℚ) :
    Response × EnhancedTrexAI :=
  let st1 : EnhancedTrexAI := { st with decisions_made := st.decisions_made + 1 }
  match process_enhanced_game_state gs with
  | ValidationResult.invalid _ => (create_error_response ("Invalid game state"), st1)
  | ValidationResult.ok processed =>
    let strategic_context := analyze_strategic_context processed
    if st1.model_loaded then
      let elite := get_elite_ai_decision st1 probs processed strategic_context
      if elite.1.success then elite
      else get_enhanced_fallback_decision elite.2 processed strategic_context
    else get_enhanced_fallback_decision st1 processed strategic_context

/-!  Helper lemmas about the pipeline's shape.  -/

/-- The elite path never succeeds: the reasoning step always raises
`KeyError` (see `generate_strategic_reasoning`), so every call returns an
internal failure and leaves the object state unchanged. -/
theorem elite_never_succeeds (st : EnhancedTrexAI) (probs : List ℚ)
    (gs : ProcessedState) (ctx : StrategicContext) :
    (get_elite_ai_decision st probs gs ctx).1.success = false ∧
    (get_elite_ai_decision st probs gs ctx).2 = st := by
  unfold get_elite_ai_decision
  cases st.model_loaded with
  | false => simp [elite_failure]
  | true =>
    simp only [Bool.not_true, Bool.false_eq_true, if_false]
    constructor <;>
      · repeat' split
        all_goals simp_all [elite_failure, generate_strategic_reasoning]

/-- When validation fails, `get_ai_move` returns the generic error response
(the field-specific message is discarded by the source), with only the
`decisions_made` counter advanced. -/
theorem get_ai_move_invalid (st : EnhancedTrexAI) (gs : RawRequest)
    (probs : List ℚ) (e : String)
    (h : process_enhanced_game_state gs = ValidationResult.invalid e) :
    get_ai_move st gs probs =
      (create_error_response ("Invalid game state"),
       { st with decisions_made := st.decisions_made + 1 }) := by
  unfold get_ai_move
  rw [h]

/-- When validation succeeds, the answer always comes from the strategic
fallback (the elite path fails internally even when a model is loaded). -/
theorem get_ai_move_ok (st : EnhancedTrexAI) (gs : RawRequest)
    (probs : List ℚ) (p : ProcessedState)
    (h : process_enhanced_game_state gs = ValidationResult.ok p) :
    get_ai_move st gs probs =
      get_enhanced_fallback_decision
        { st with decisions_made := st.decisions_made + 1 } p
        (analyze_strategic_context p) := by
  unfold get_ai_move
  rw [h]
  obtain ⟨h1, h2⟩ :=
    elite_never_succeeds { st with decisions_made := st.decisions_made + 1 }
      probs p (analyze_strategic_context p)
  cases hml : st.model_loaded with
  | false => simp [hml]
  | true =>
    rw [hml] at h1 h2
    simp [hml, h1, h2]

/-- A fold whose step always keeps either the accumulator or the new element
produces the seed or a list element. -/
theorem foldl_choice_mem {α : Type} (step : α → α → α)
    (hstep : ∀ a c, step a c = a ∨ step a c = c) (xs : List α) :
    ∀ x : α, xs.foldl step x = x ∨ xs.foldl step x ∈ xs := by
  induction xs with
  | nil => intro x; exact Or.inl rfl
  | cons c cs ih =>
    intro x
    rw [List.foldl_cons]
    rcases ih (step x c) with h | h
    · rw [h]
      rcases hstep x c with h2 | h2
      · exact Or.inl h2
      · exact Or.inr (by rw [h2]; exact List.mem_cons_self c cs)
    · exact Or.inr (List.mem_cons_of_mem c h)

/-- Full characterisation of Python `min(x :: xs, key=f)`: the result is a
global minimum of the keys and is the element at the earliest position
achieving that minimum (everything before it has a strictly larger key). -/
theorem minFold_spec (f : ℤ → ℤ) (xs : List ℤ) :
    ∀ x : ℤ,
      (f (minFold f x xs) ≤ f x ∧ ∀ e ∈ xs, f (minFold f x xs) ≤ f e) ∧
      ∃ pre post, x :: xs = pre ++ minFold f x xs :: post ∧
        ∀ e ∈ pre, f (minFold f x xs) < f e := by
  induction xs with
  | nil =>
    intro x
    refine ⟨⟨le_refl _, ?_⟩, [], [], rfl, ?_⟩ <;> intro e he <;> cases he
  | cons c cs ih =>
    intro x
    by_cases hcx : f c < f x
    · have hstep : minFold f x (c :: cs) = minFold f c cs := by
        simp [minFold, minFoldStep, List.foldl_cons, hcx]
      obtain ⟨⟨hle, hall⟩, pre, post, heq, hpre⟩ := ih c
      rw [hstep]
      refine ⟨⟨le_of_lt (lt_of_le_of_lt hle hcx), ?_⟩, x :: pre, post, ?_, ?_⟩
      · intro e he
        rcases List.mem_cons.mp he with rfl | he2
        · exact hle
        · exact hall e he2
      · rw [List.cons_append, ← heq]
      · intro e he
        rcases List.mem_cons.mp he with rfl | he2
        · exact lt_of_le_of_lt hle hcx
        · exact hpre e he2
    · have hstep : minFold f x (c :: cs) = minFold f x cs := by
        simp [minFold, minFoldStep, List.foldl_cons, hcx]
      have hxc : f x ≤ f c := not_lt.mp hcx
      obtain ⟨⟨hle, hall⟩, pre, post, heq, hpre⟩ := ih x
      rw [hstep]
      refine ⟨⟨hle, ?_⟩, ?_⟩
      · intro e he
        rcases List.mem_cons.mp he with rfl | he2
        · exact le_trans hle hxc
        · exact hall e he2
      · cases pre with
        | nil =>
          rw [List.nil_append] at heq
          injection heq with hx hcs
          refine ⟨[], c :: cs, ?_, ?_⟩
          · rw [List.nil_append, ← hx]
          · intro e he; cases he
        | cons q qs =>
          rw [List.cons_append] at heq
          injection heq with hq hcs
          refine ⟨x :: c :: qs, post, ?_, ?_⟩
          · rw [List.cons_append, List.cons_append, ← hcs]
          · intro e he
            rcases List.mem_cons.mp he with rfl | he2
            · exact hq ▸ hpre q (List.mem_cons_self q qs)
            · rcases List.mem_cons.mp he2 with rfl | he3
              · exact lt_of_lt_of_le (hq ▸ hpre q (List.mem_cons_self q qs)) hxc
              · exact hpre e (List.mem_cons_of_mem q he3)

/-- `minByRank` on a non-empty list: the first minimal-rank element. -/
theorem minByRank_spec (l : List ℤ) (h : l ≠ []) :
    ∃ c, minByRank l = some c ∧ c ∈ l ∧ (∀ d ∈ l, rank c ≤ rank d) ∧
      ∃ pre post, l = pre ++ c :: post ∧ ∀ e ∈ pre, rank c < rank e := by
  cases l with
  | nil => exact absurd rfl h
  | cons x xs =>
    obtain ⟨⟨h1, h2⟩, pre, post, heq, hpre⟩ := minFold_spec rank xs x
    refine ⟨minFold rank x xs, rfl, ?_, ?_, pre, post, heq, hpre⟩
    · rw [heq]
      exact List.mem_append_right pre (List.mem_cons_self _ post)
    · intro d hd
      rcases List.mem_cons.mp hd with rfl | hd2
      · exact h1
      · exact h2 d hd2

/-- `minByRank` returns an element of a non-empty list. -/
theorem minByRank_mem (l : List ℤ) (h : l ≠ []) :
    ∃ c, minByRank l = some c ∧ c ∈ l := by
  obtain ⟨c, hc, hmem, _⟩ := minByRank_spec l h
  exact ⟨c, hc, hmem⟩

/-- `maxByRank` returns an element of a non-empty list. -/
theorem maxByRank_mem (l : List ℤ) (h : l ≠ []) :
    ∃ c, maxByRank l = some c ∧ c ∈ l := by
  cases l with
  | nil => exact absurd rfl h
  | cons x xs =>
    refine ⟨maxFold rank x xs, rfl, ?_⟩
    have hstep : ∀ a c : ℤ, maxFoldStep rank a c = a ∨ maxFoldStep rank a c = c := by
      intro a c
      unfold maxFoldStep
      by_cases hac : rank a < rank c <;> simp [hac]
    rcases foldl_choice_mem (maxFoldStep rank) hstep xs x with h2 | h2
    · show List.foldl (maxFoldStep rank) x xs ∈ x :: xs
      rw [h2]
      exact List.mem_cons_self x xs
    · exact List.mem_cons_of_mem x h2

/-- The first element returned by `List.find?` really is first: everything
before it in the list fails the predicate. -/
theorem find?_first {α : Type} (p : α → Bool) :
    ∀ (l : List α) (a : α), l.find? p = some a →
      ∃ pre post, l = pre ++ a :: post ∧ ∀ e ∈ pre, p e = false := by
  intro l
  induction l with
  | nil => intro a h; simp [List.find?] at h
  | cons x xs ih =>
    intro a h
    by_cases hx : p x = true
    · rw [List.find?_cons_of_pos _ hx] at h
      injection h with h2
      exact ⟨[], xs, by rw [List.nil_append, h2], by intro e he; cases he⟩
    · rw [List.find?_cons_of_neg _ (by simpa using hx)] at h
      obtain ⟨pre, post, heq, hpre⟩ := ih a h
      refine ⟨x :: pre, post, by rw [List.cons_append, heq], ?_⟩
      intro e he
      rcases List.mem_cons.mp he with rfl | he2
      · simpa using hx
      · exact hpre e he2

/-- The middle index `length / 2` of a non-empty list is in range. -/
theorem middle_mem {l : List ℤ} (h : l ≠ []) :
    ∃ c, l[l.length / 2]? = some c ∧ c ∈ l := by
  have hlt : l.length / 2 < l.length :=
    Nat.div_lt_self (List.length_pos.mpr h) one_lt_two
  exact ⟨l[l.length / 2], List.getElem?_eq_getElem hlt, List.getElem_mem hlt⟩

/-- The middle of the rank-sorted copy of a non-empty list exists and is one
of the original cards. -/
theorem sortByRank_middle_mem (valid : List ℤ) (h : valid ≠ []) :
    ∃ c, (sortByRank valid)[(sortByRank valid).length / 2]? = some c ∧
      c ∈ valid := by
  have hperm : List.Perm (sortByRank valid) valid :=
    List.perm_insertionSort rankLE valid
  have hne : sortByRank valid ≠ [] := by
    intro hnil
    rw [hnil] at hperm
    exact h (List.Perm.eq_nil hperm.symm)
  obtain ⟨c, hc, hmem⟩ := middle_mem hne
  exact ⟨c, hc, hperm.mem_iff.mp hmem⟩

/-- `_select_conservative_card` picks a legal card. -/
theorem select_conservative_mem (valid : List ℤ) (mode : String)
    (h : valid ≠ []) :
    ∃ c, select_conservative_card valid mode = some c ∧ c ∈ valid := by
  simp only [select_conservative_card]
  split_ifs with hs
  · obtain ⟨c, hc, hmem⟩ := minByRank_mem _ hs
    exact ⟨c, hc, (List.mem_filter.mp hmem).1⟩
  · exact minByRank_mem valid h

/-- `_select_balanced_card` picks a legal card. -/
theorem select_balanced_mem (valid : List ℤ) (mode : String)
    (h : valid ≠ []) :
    ∃ c, select_balanced_card valid mode = some c ∧ c ∈ valid := by
  simp only [select_balanced_card]
  split_ifs with hmode hs
  · obtain ⟨c, hc, hmem⟩ := middle_mem hs
    exact ⟨c, hc, (List.mem_filter.mp hmem).1⟩
  · exact sortByRank_middle_mem valid h
  · exact sortByRank_middle_mem valid h

/-- `_select_informed_card` picks a legal card. -/
theorem select_informed_mem (valid played : List ℤ) (mode : String)
    (h : valid ≠ []) :
    ∃ c, select_informed_card valid played mode = some c ∧ c ∈ valid := by
  simp only [select_informed_card]
  split_ifs with hp hs
  · obtain ⟨c, hc, hmem⟩ := maxByRank_mem _ hs
    exact ⟨c, hc, (List.mem_filter.mp hmem).1⟩
  · exact minByRank_mem valid h
  · exact select_balanced_mem valid mode h

/-- On a non-empty legal-card list the fallback returns a successful,
fully populated decision whose card is legal, and adds its confidence to
the running total. -/
theorem fallback_success (st : EnhancedTrexAI) (gs : ProcessedState)
    (ctx : StrategicContext) (h : gs.valid_cards ≠ []) :
    ∃ c conf,
      get_enhanced_fallback_decision st gs ctx =
        ({ success := true
           error := none
           best_card := some c
           confidence := some conf
           reasoning := some ("Strategic " ++ ctx.strategy ++
             " play based on " ++
             classify_position gs.player_position gs.played_cards.length ++
             " position")
           model_used := some ("Enhanced Strategic Rules")
           strategic_context := some ctx
           performance_level := some ("70% human")
           decision_type := some ("strategic_fallback") },
         { st with confidence_total := st.confidence_total + conf }) ∧
      c ∈ gs.valid_cards ∧
      conf = min (85/100 : ℚ)
        (65/100 + (if ctx.position_advantage = "high" then 2/10 else 0)) := by
  have hsel : ∃ c,
      (if ctx.strategy = "conservative" then
        select_conservative_card gs.valid_cards gs.game_mode
      else if ctx.strategy = "informed" then
        select_informed_card gs.valid_cards gs.played_cards gs.game_mode
      else select_balanced_card gs.valid_cards gs.game_mode) = some c ∧
      c ∈ gs.valid_cards := by
    split_ifs with h1 h2
    · exact select_conservative_mem _ _ h
    · exact select_informed_mem _ _ _ h
    · exact select_balanced_mem _ _ h
  obtain ⟨c, hc, hmem⟩ := hsel
  refine ⟨c,
    min (85/100 : ℚ)
      (65/100 + (if ctx.position_advantage = "high" then 2/10 else 0)),
    ?_, hmem, rfl⟩
  simp only [get_enhanced_fallback_decision]
  rw [if_neg h, hc]

/-!  Spec-side definitions: these follow the wording of the spec's claims
(fractions of the legal-card set, the claimed feature layout, the claimed
well-formedness of responses) and are compared against the code-side
definitions above.  -/

/-- Fraction of the legal cards that are hearts, as the spec words it. -/
def heartsFraction (valid : List ℤ) : ℚ :=
  ((valid.filter (fun c => is_heart_card c)).length : ℚ) / (valid.length : ℚ)

/-- Fraction of the legal cards that are diamonds. -/
def diamondsFraction (valid : List ℤ) : ℚ :=
  ((valid.filter (fun c => is_diamond_card c)).length : ℚ) / (valid.length : ℚ)

/-- The spec's Hearts tier rule: fraction ≥ 0.70 ⇒ High, positive ⇒ Medium,
zero ⇒ Low. -/
def specHeartsRisk (valid : List ℤ) : String :=
  if 7/10 ≤ heartsFraction valid then "high"
  else if 0 < heartsFraction valid then "medium"
  else "low"

/-- The spec's Queens tier rule: some legal queen ⇒ High, else Low. -/
def specQueensRisk (valid : List ℤ) : String :=
  if ∃ c ∈ valid, is_queen_card c = true then "high" else "low"

/-- The spec's KingOfHearts tier rule: card 37 legal ⇒ High, else Low. -/
def specKingHeartsRisk (valid : List ℤ) : String :=
  if (37 : ℤ) ∈ valid then "high" else "low"

/-- The spec's Diamonds tier rule: fraction ≥ 0.50 ⇒ High, positive ⇒
Medium, zero ⇒ Low. -/
def specDiamondsRisk (valid : List ℤ) : String :=
  if 1/2 ≤ diamondsFraction valid then "high"
  else if 0 < diamondsFraction valid then "medium"
  else "low"

/-!  Bridges between the code's integer-count comparisons and the spec's
fraction comparisons.  -/

/-- For positive denominators, a fraction threshold is an integer cross
multiplication. -/
theorem count_frac_le_iff (a b cnt n : ℕ) (hb : 0 < b) (hn : 0 < n) :
    ((a : ℚ) / (b : ℚ) ≤ (cnt : ℚ) / (n : ℚ)) ↔ a * n ≤ b * cnt := by
  rw [div_le_div_iff₀ (by exact_mod_cast hb) (by exact_mod_cast hn)]
  constructor
  · intro hx
    have h2 : ((a * n : ℕ) : ℚ) ≤ ((b * cnt : ℕ) : ℚ) := by push_cast; linarith
    exact_mod_cast h2
  · intro hx
    have h2 : ((a * n : ℕ) : ℚ) ≤ ((b * cnt : ℕ) : ℚ) := by exact_mod_cast hx
    push_cast at h2
    linarith

/-- For a positive denominator, a fraction is positive exactly when its
numerator is. -/
theorem count_frac_pos_iff (cnt n : ℕ) (hn : 0 < n) :
    ((0 : ℚ) < (cnt : ℚ) / (n : ℚ)) ↔ 0 < cnt := by
  have hn2 : (0 : ℚ) < (n : ℚ) := by exact_mod_cast hn
  rw [div_pos_iff]
  constructor
  · rintro (⟨h1, _⟩ | ⟨_, h2⟩)
    · exact_mod_cast h1
    · exact absurd hn2 (not_lt.mpr h2.le)
  · intro hh
    exact Or.inl ⟨by exact_mod_cast hh, hn2⟩

/-- The code's Hearts assessment equals the spec's fraction rule on
non-empty legal-card lists. -/
theorem assess_hearts_risk_spec (valid : List ℤ) (h : valid ≠ []) :
    assess_hearts_risk valid = specHeartsRisk valid := by
  have hn : 0 < valid.length := List.length_pos.mpr h
  have e1 : ((7 : ℚ)/10 ≤ heartsFraction valid) ↔
      7 * valid.length ≤ 10 * (valid.filter (fun c => is_heart_card c)).length := by
    unfold heartsFraction
    have h2 := count_frac_le_iff 7 10
      ((valid.filter (fun c => is_heart_card c)).length) valid.length
      (by norm_num) hn
    push_cast at h2
    exact h2
  have e2 : ((0 : ℚ) < heartsFraction valid) ↔
      0 < (valid.filter (fun c => is_heart_card c)).length := by
    unfold heartsFraction
    exact count_frac_pos_iff _ _ hn
  simp only [assess_hearts_risk, specHeartsRisk]
  by_cases hc1 : 7 * valid.length ≤ 10 * (valid.filter (fun c => is_heart_card c)).length
  · rw [if_pos hc1, if_pos (e1.mpr hc1)]
  · rw [if_neg hc1, if_neg (fun hx => hc1 (e1.mp hx))]
    by_cases hc2 : 0 < (valid.filter (fun c => is_heart_card c)).length
    · rw [if_pos hc2, if_pos (e2.mpr hc2)]
    · rw [if_neg hc2, if_neg (fun hx => hc2 (e2.mp hx))]

/-- The code's Diamonds assessment equals the spec's fraction rule on
non-empty legal-card lists. -/
theorem assess_diamonds_risk_spec (valid : List ℤ) (h : valid ≠ []) :
    assess_diamonds_risk valid = specDiamondsRisk valid := by
  have hn : 0 < valid.length := List.length_pos.mpr h
  have e1 : ((1 : ℚ)/2 ≤ diamondsFraction valid) ↔
      valid.length ≤ 2 * (valid.filter (fun c => is_diamond_card c)).length := by
    unfold diamondsFraction
    have h2 := count_frac_le_iff 1 2
      ((valid.filter (fun c => is_diamond_card c)).length) valid.length
      (by norm_num) hn
    push_cast at h2
    rw [h2]
    constructor <;> intro <;> omega
  have e2 : ((0 : ℚ) < diamondsFraction valid) ↔
      0 < (valid.filter (fun c => is_diamond_card c)).length := by
    unfold diamondsFraction
    exact count_frac_pos_iff _ _ hn
  simp only [assess_diamonds_risk, specDiamondsRisk]
  by_cases hc1 : valid.length ≤ 2 * (valid.filter (fun c => is_diamond_card c)).length
  · rw [if_pos hc1, if_pos (e1.mpr hc1)]
  · rw [if_neg hc1, if_neg (fun hx => hc1 (e1.mp hx))]
    by_cases hc2 : 0 < (valid.filter (fun c => is_diamond_card c)).length
    · rw [if_pos hc2, if_pos (e2.mpr hc2)]
    · rw [if_neg hc2, if_neg (fun hx => hc2 (e2.mp hx))]

/-- The code's Queens assessment equals the spec's existence rule. -/
theorem assess_queens_risk_spec (valid : List ℤ) :
    assess_queens_risk valid = specQueensRisk valid := by
  simp only [assess_queens_risk, specQueensRisk]
  by_cases hq : ∃ c ∈ valid, is_queen_card c = true
  · have hne : valid.filter (fun c => is_queen_card c) ≠ [] := by
      intro hnil
      obtain ⟨c, hc, hqc⟩ := hq
      exact (List.filter_eq_nil_iff.mp hnil c hc) hqc
    rw [if_neg hne, if_pos hq]
  · have hnil : valid.filter (fun c => is_queen_card c) = [] := by
      rw [List.filter_eq_nil_iff]
      intro a ha hqa
      exact hq ⟨a, ha, hqa⟩
    rw [if_pos hnil, if_neg hq]

/-- The code's KingOfHearts assessment equals the spec's membership rule. -/
theorem assess_king_hearts_risk_spec (valid : List ℤ) :
    assess_king_hearts_risk valid = specKingHeartsRisk valid := by
  simp only [assess_king_hearts_risk, specKingHeartsRisk]
  by_cases hk : (37 : ℤ) ∈ valid
  · have hne : valid.filter (fun c => is_king_of_hearts c) ≠ [] := by
      intro hnil
      have := List.filter_eq_nil_iff.mp hnil 37 hk
      simp [is_king_of_hearts] at this
    rw [if_neg hne, if_pos hk]
  · have hnil : valid.filter (fun c => is_king_of_hearts c) = [] := by
      rw [List.filter_eq_nil_iff]
      intro a ha hka
      rw [is_king_of_hearts, decide_eq_true_iff] at hka
      exact hk (hka ▸ ha)
    rw [if_pos hnil, if_neg hk]

/-- An empty legal-card list short-circuits the fallback to the standard
error response, leaving the state unchanged. -/
theorem fallback_empty (st : EnhancedTrexAI) (gs : ProcessedState)
    (ctx : StrategicContext) (h : gs.valid_cards = []) :
    get_enhanced_fallback_decision st gs ctx =
      (create_error_response ("No valid cards"), st) := by
  simp only [get_enhanced_fallback_decision]
  rw [if_pos h]

/-!  Concrete sample inputs used by witnesses and counterexamples.  -/

/-- A fresh engine with no loaded model. -/
def ai0 : EnhancedTrexAI :=
  { model_loaded := false, decisions_made := 0, confidence_total := 0 }

/-- The sample request of the source's own `test_enhanced_ai`. -/
def req_sample : RawRequest :=
  { player_cards := some [0, 13, 26, 39, 51]
    valid_cards := some [0, 13, 26]
    game_mode := some ("kingdom")
    current_player := some 1
    played_cards := some [37]
    tricks_won := some 4
    hearts_broken := some true }

/-- The processed state produced from `req_sample`. -/
def proc_sample : ProcessedState :=
  { player_cards := [0, 13, 26, 39, 51]
    valid_cards := [0, 13, 26]
    game_mode := "kingdom"
    played_cards := [37]
    current_player := 1
    tricks_won := 4
    hearts_broken := true
    player_position := 1
    round_number := 1
    trick_number := 1
    lead_suit := none
    scores := [0, 0, 0, 0]
    cards_played_history := []
    trump_suit := none
    hand_size := 5
    cards_remaining := 52
    position_type := "early_position"
    game_phase := "early_game" }

/-- A request whose `game_mode` key is absent. -/
def req_missing : RawRequest :=
  { player_cards := some [0], valid_cards := some [0], current_player := some 0 }

/-- A validated request with an empty legal-card list. -/
def req_novalid : RawRequest :=
  { player_cards := some [1, 2]
    valid_cards := some []
    game_mode := some ("hearts")
    current_player := some 0 }

/-- The processed state produced from `req_novalid`. -/
def proc_novalid : ProcessedState :=
  { player_cards := [1, 2]
    valid_cards := []
    game_mode := "hearts"
    played_cards := []
    current_player := 0
    tricks_won := 0
    hearts_broken := false
    player_position := 1
    round_number := 1
    trick_number := 1
    lead_suit := none
    scores := [0, 0, 0, 0]
    cards_played_history := []
    trump_suit := none
    hand_size := 2
    cards_remaining := 52
    position_type := "early_position"
    game_phase := "early_game" }

/-- A request with a legal-card list that does not contain card 0. -/
def req_gate : RawRequest :=
  { player_cards := some [5], valid_cards := some [5], current_player := some 0 }

/-!  The claims.  -/

/-- C1: for every well-formed request (validation succeeds) whose legal-card
set is non-empty, the response of `get_ai_move` is successful and its
`best_card` is an element of `valid_cards`.  This covers every path that
can produce the response: the learned-policy attempt always fails
internally (`elite_never_succeeds`), so the strategic fallback answers, and
each of its three selection strategies picks a legal card. -/
theorem C1_best_card_legal (st : EnhancedTrexAI) (gs : RawRequest)
    (probs : List ℚ) (p : ProcessedState)
    (hok : process_enhanced_game_state gs = ValidationResult.ok p)
    (hne : p.valid_cards ≠ []) :
    (get_ai_move st gs probs).1.success = true ∧
    ∃ c, (get_ai_move st gs probs).1.best_card = some c ∧
      c ∈ p.valid_cards := by
  rw [get_ai_move_ok st gs probs p hok]
  obtain ⟨c, conf, heq, hmem, _⟩ :=
    fallback_success { st with decisions_made := st.decisions_made + 1 } p
      (analyze_strategic_context p) hne
  rw [heq]
  exact ⟨rfl, c, rfl, hmem⟩

/-- Witness for C1 at the source's own sample request. -/
theorem C1_witness :
    (get_ai_move ai0 req_sample []).1.success = true ∧
    ∃ c, (get_ai_move ai0 req_sample []).1.best_card = some c ∧
      c ∈ proc_sample.valid_cards :=
  C1_best_card_legal ai0 req_sample [] proc_sample (by decide) (by decide)

/-- Spec-side well-formedness of a response: either a successful decision
with its decision fields present and no error key, or the standard error
response shape of `_create_error_response`. -/
def wellFormedResponse (r : Response) : Prop :=
  (r.success = true ∧ r.best_card.isSome = true ∧ r.confidence.isSome = true ∧
    r.decision_type.isSome = true ∧ r.error = none) ∨
  (r.success = false ∧ r.error.isSome = true ∧ r.best_card = some 0 ∧
    r.confidence = some 0 ∧ r.model_used = some ("Error Handler"))

/-- C2: `get_ai_move` is a total function of its inputs — every validation
failure, policy failure (modelled by an arbitrary, possibly failing oracle
output) or internal fault is converted into a structured response: a
well-formed decision or the standard `success=false` error response.  No
exception escapes. -/
theorem C2_no_uncaught_failure (st : EnhancedTrexAI) (gs : RawRequest)
    (probs : List ℚ) : wellFormedResponse (get_ai_move st gs probs).1 := by
  cases hpr : process_enhanced_game_state gs with
  | invalid e =>
    rw [get_ai_move_invalid st gs probs e hpr]
    exact Or.inr ⟨rfl, rfl, rfl, rfl, rfl⟩
  | ok p =>
    rw [get_ai_move_ok st gs probs p hpr]
    by_cases hne : p.valid_cards = []
    · rw [fallback_empty _ p _ hne]
      exact Or.inr ⟨rfl, rfl, rfl, rfl, rfl⟩
    · obtain ⟨c, conf, heq, hmem, _⟩ :=
        fallback_success { st with decisions_made := st.decisions_made + 1 } p
          (analyze_strategic_context p) hne
      rw [heq]
      exact Or.inl ⟨rfl, rfl, rfl, rfl, rfl⟩

/-- C3 counterexample: a validated request with an empty legal-card set
yields `success=false`, but the response carries **no** `decision_type`
field at all — in particular it does not equal `"error"` as the claim
states (`_create_error_response` never writes that key). -/
theorem C3_counterexample :
    (get_ai_move ai0 req_novalid []).1.success = false ∧
    (get_ai_move ai0 req_novalid []).1.decision_type = none ∧
    (get_ai_move ai0 req_novalid []).1.decision_type ≠ some ("error") := by
  refine ⟨by decide, by decide, by decide⟩

/-- C3 (amended): for every request that passes validation with an empty
legal-card set, the response is the standard error response with
`success=false`, message `"No valid cards"` and **no** `decision_type`
field; the check sits at the head of the strategic fallback (after context
analysis, and after the learned-policy attempt has failed internally when a
model is loaded), and the confidence counter is untouched. -/
theorem C3_empty_valid_cards (st : EnhancedTrexAI) (gs : RawRequest)
    (probs : List ℚ) (p : ProcessedState)
    (hok : process_enhanced_game_state gs = ValidationResult.ok p)
    (he : p.valid_cards = []) :
    (get_ai_move st gs probs).1 = create_error_response ("No valid cards") ∧
    (get_ai_move st gs probs).1.success = false ∧
    (get_ai_move st gs probs).1.decision_type = none ∧
    (get_ai_move st gs probs).2.confidence_total = st.confidence_total := by
  rw [get_ai_move_ok st gs probs p hok, fallback_empty _ p _ he]
  exact ⟨rfl, rfl, rfl, rfl⟩

/-- Witness for the amended C3. -/
theorem C3_witness :
    (get_ai_move ai0 req_novalid []).1 = create_error_response ("No valid cards") ∧
    (get_ai_move ai0 req_novalid []).1.success = false ∧
    (get_ai_move ai0 req_novalid []).1.decision_type = none ∧
    (get_ai_move ai0 req_novalid []).2.confidence_total = ai0.confidence_total :=
  C3_empty_valid_cards ai0 req_novalid [] proc_novalid (by decide) (by decide)

/-- C4 counterexample: in Kingdom mode with legal cards `[40, 1]` both cards
have rank 1, so the claimed tie-break "lowest card index" would pick
card 1; the code (`min` with a key) keeps the first minimal entry and
returns 40. -/
theorem C4_counterexample :
    select_conservative_card [40, 1] ("kingdom") = some 40 ∧
    (1 : ℤ) ∈ ([40, 1] : List ℤ) ∧
    rank 1 = rank 40 ∧ (1 : ℤ) < 40 ∧ (40 : ℤ) ≠ 1 := by
  refine ⟨by decide, by decide, by decide, by decide, by decide⟩

/-- C4 (amended): the Conservative pick is the minimum-rank card of the
non-penalty legal cards (of all legal cards when no safe card exists), and
a rank tie is broken by the **earliest position in the legal-card list**
(every element before the pick has strictly larger rank), not by lowest
card index. -/
theorem C4_conservative_tiebreak (valid_cards : List ℤ) (game_mode : String)
    (h : valid_cards ≠ []) :
    ∃ c pool,
      pool = (if valid_cards.filter (fun x => !(is_penalty_card x game_mode)) = []
              then valid_cards
              else valid_cards.filter (fun x => !(is_penalty_card x game_mode))) ∧
      select_conservative_card valid_cards game_mode = some c ∧
      (∀ d ∈ pool, rank c ≤ rank d) ∧
      ∃ pre post, pool = pre ++ c :: post ∧ ∀ e ∈ pre, rank c < rank e := by
  simp only [select_conservative_card]
  by_cases hs : valid_cards.filter (fun x => !(is_penalty_card x game_mode)) = []
  · obtain ⟨c, hc, _, hmin, pre, post, heq, hpre⟩ := minByRank_spec valid_cards h
    refine ⟨c, valid_cards, (if_pos hs).symm, ?_, hmin, pre, post, heq, hpre⟩
    rw [if_neg (not_not_intro hs)]
    exact hc
  · obtain ⟨c, hc, _, hmin, pre, post, heq, hpre⟩ := minByRank_spec _ hs
    refine ⟨c, _, (if_neg hs).symm, ?_, hmin, pre, post, heq, hpre⟩
    rw [if_pos hs]
    exact hc

/-- Witness for the amended C4 at the spec's own example
(Kingdom, legal cards `[5, 0, 20]`, selection 0). -/
theorem C4_witness :
    ([5, 0, 20] : List ℤ) ≠ [] ∧
    ∃ c pool,
      pool = (if ([5, 0, 20] : List ℤ).filter
                  (fun x => !(is_penalty_card x ("kingdom"))) = []
              then ([5, 0, 20] : List ℤ)
              else ([5, 0, 20] : List ℤ).filter
                  (fun x => !(is_penalty_card x ("kingdom")))) ∧
      select_conservative_card [5, 0, 20] ("kingdom") = some c ∧
      (∀ d ∈ pool, rank c ≤ rank d) ∧
      ∃ pre post, pool = pre ++ c :: post ∧ ∀ e ∈ pre, rank c < rank e :=
  ⟨by decide, C4_conservative_tiebreak [5, 0, 20] ("kingdom") (by decide)⟩

/-- C5 counterexample: Hearts mode, legal cards `[12, 0, 1]` — all safe, so
the safe subset is `[12, 0, 1]` with middle index 1.  Under ascending-rank
order (`[0, 1, 12]`) index 1 holds card 1, which the claim demands; the
code indexes the **unsorted** safe list and returns card 0. -/
theorem C5_counterexample :
    select_balanced_card [12, 0, 1] ("hearts") = some 0 ∧
    ([12, 0, 1] : List ℤ).filter
      (fun c => !(is_penalty_card c ("hearts"))) = [12, 0, 1] ∧
    sortByRank [12, 0, 1] = [0, 1, 12] ∧
    (sortByRank [12, 0, 1])[1]? = some 1 ∧
    (0 : ℤ) ≠ 1 := by
  refine ⟨by decide, by decide, by decide, by decide, by decide⟩

/-- C5 (amended): in a penalty-bearing mode with a non-empty safe subset the
Balanced pick is the element at index `size/2` of the safe subset **in its
original list order** (not rank-sorted); in Kingdom mode or with an empty
safe subset it is the element at index `size/2` of the legal cards under
the stable ascending-rank sort (a sorted permutation of the legal list). -/
theorem C5_balanced_selection (valid_cards : List ℤ) (game_mode : String)
    (h : valid_cards ≠ []) :
    ∃ safe sorted,
      safe = valid_cards.filter
        (fun c => !(is_penalty_card c (lowercase game_mode))) ∧
      sorted = sortByRank valid_cards ∧
      ((lowercase game_mode ∈ penalty_modes ∧ safe ≠ [] →
        select_balanced_card valid_cards game_mode = safe[safe.length / 2]? ∧
        safe[safe.length / 2]?.isSome = true) ∧
       (lowercase game_mode ∉ penalty_modes ∨ safe = [] →
        select_balanced_card valid_cards game_mode =
          sorted[sorted.length / 2]? ∧
        sorted[sorted.length / 2]?.isSome = true ∧
        sorted.Perm valid_cards ∧ List.Sorted rankLE sorted)) := by
  refine ⟨_, _, rfl, rfl, ?_, ?_⟩
  · rintro ⟨hmode, hsafe⟩
    constructor
    · simp only [select_balanced_card]
      rw [if_pos hmode, if_pos hsafe]
    · obtain ⟨c, hc, _⟩ := middle_mem hsafe
      rw [hc]
      rfl
  · intro hcase
    have hperm : (sortByRank valid_cards).Perm valid_cards :=
      List.perm_insertionSort rankLE valid_cards
    have hsorted : List.Sorted rankLE (sortByRank valid_cards) :=
      List.sorted_insertionSort rankLE valid_cards
    have hsome :
        (sortByRank valid_cards)[(sortByRank valid_cards).length / 2]?.isSome
          = true := by
      obtain ⟨c, hc, _⟩ := sortByRank_middle_mem valid_cards h
      rw [hc]
      rfl
    rcases hcase with hmode | hsafe
    · refine ⟨?_, hsome, hperm, hsorted⟩
      simp only [select_balanced_card]
      rw [if_neg hmode]
    · refine ⟨?_, hsome, hperm, hsorted⟩
      simp only [select_balanced_card]
      by_cases hmode : lowercase game_mode ∈ penalty_modes
      · rw [if_pos hmode, if_neg (not_not_intro hsafe)]
      · rw [if_neg hmode]

/-- Witness for the amended C5 at Kingdom mode, legal cards `[12, 0, 1]`. -/
theorem C5_witness :
    ([12, 0, 1] : List ℤ) ≠ [] ∧
    ∃ safe sorted,
      safe = ([12, 0, 1] : List ℤ).filter
        (fun c => !(is_penalty_card c (lowercase ("kingdom")))) ∧
      sorted = sortByRank [12, 0, 1] ∧
      ((lowercase ("kingdom") ∈ penalty_modes ∧ safe ≠ [] →
        select_balanced_card [12, 0, 1] ("kingdom") = safe[safe.length / 2]? ∧
        safe[safe.length / 2]?.isSome = true) ∧
       (lowercase ("kingdom") ∉ penalty_modes ∨ safe = [] →
        select_balanced_card [12, 0, 1] ("kingdom") =
          sorted[sorted.length / 2]? ∧
        sorted[sorted.length / 2]?.isSome = true ∧
        sorted.Perm [12, 0, 1] ∧ List.Sorted rankLE sorted)) :=
  ⟨by decide, C5_balanced_selection [12, 0, 1] ("kingdom") (by decide)⟩

/-- The stored penalty risk is the mode dispatch over the four assessors. -/
theorem analyze_penalty_risk (p : ProcessedState) :
    (analyze_strategic_context p).penalty_risk =
      (if lowercase p.game_mode = "hearts" then
        assess_hearts_risk p.valid_cards
      else if lowercase p.game_mode = "queens" then
        assess_queens_risk p.valid_cards
      else if lowercase p.game_mode = "king_of_hearts" then
        assess_king_hearts_risk p.valid_cards
      else if lowercase p.game_mode = "diamonds" then
        assess_diamonds_risk p.valid_cards
      else "low") := rfl

/-- A processed state with game mode `"hearts"` and an all-hearts legal set,
used as the C6 witness input. -/
def proc_hearts : ProcessedState :=
  { player_cards := [26, 27, 28]
    valid_cards := [26, 27, 28]
    game_mode := "hearts"
    played_cards := []
    current_player := 0
    tricks_won := 0
    hearts_broken := false
    player_position := 1
    round_number := 1
    trick_number := 1
    lead_suit := none
    scores := [0, 0, 0, 0]
    cards_played_history := []
    trump_suit := none
    hand_size := 3
    cards_remaining := 52
    position_type := "early_position"
    game_phase := "early_game" }

/-- C6: for every validated request with a non-empty legal-card set, the
per-mode risk tier stored in the derived strategic context follows the
spec's rules computed from the legal-card set alone: Hearts by the 0.70
hearts-fraction threshold, Queens by presence of a legal queen,
KingOfHearts by legality of card 37, Diamonds by the 0.50
diamonds-fraction threshold. -/
theorem C6_penalty_risk_tiers (p : ProcessedState) (h : p.valid_cards ≠ []) :
    (lowercase p.game_mode = "hearts" →
      (analyze_strategic_context p).penalty_risk =
        specHeartsRisk p.valid_cards) ∧
    (lowercase p.game_mode = "queens" →
      (analyze_strategic_context p).penalty_risk =
        specQueensRisk p.valid_cards) ∧
    (lowercase p.game_mode = "king_of_hearts" →
      (analyze_strategic_context p).penalty_risk =
        specKingHeartsRisk p.valid_cards) ∧
    (lowercase p.game_mode = "diamonds" →
      (analyze_strategic_context p).penalty_risk =
        specDiamondsRisk p.valid_cards) := by
  refine ⟨fun hm => ?_, fun hm => ?_, fun hm => ?_, fun hm => ?_⟩ <;>
    rw [analyze_penalty_risk, hm]
  · rw [if_pos rfl]
    exact assess_hearts_risk_spec _ h
  · rw [if_neg (by decide), if_pos rfl]
    exact assess_queens_risk_spec _
  · rw [if_neg (by decide), if_neg (by decide), if_pos rfl]
    exact assess_king_hearts_risk_spec _
  · rw [if_neg (by decide), if_neg (by decide), if_neg (by decide), if_pos rfl]
    exact assess_diamonds_risk_spec _ h

/-- Witness for C6 at an all-hearts legal set in Hearts mode. -/
theorem C6_witness :
    proc_hearts.valid_cards ≠ [] ∧
    ((lowercase proc_hearts.game_mode = "hearts" →
      (analyze_strategic_context proc_hearts).penalty_risk =
        specHeartsRisk proc_hearts.valid_cards) ∧
     (lowercase proc_hearts.game_mode = "queens" →
      (analyze_strategic_context proc_hearts).penalty_risk =
        specQueensRisk proc_hearts.valid_cards) ∧
     (lowercase proc_hearts.game_mode = "king_of_hearts" →
      (analyze_strategic_context proc_hearts).penalty_risk =
        specKingHeartsRisk proc_hearts.valid_cards) ∧
     (lowercase proc_hearts.game_mode = "diamonds" →
      (analyze_strategic_context proc_hearts).penalty_risk =
        specDiamondsRisk proc_hearts.valid_cards)) :=
  ⟨by decide, C6_penalty_risk_tiers proc_hearts (by decide)⟩

/-- The claim's feature-vector layout, written out from the spec's words:
the four normalised scalars, the five mode slots in the spec's order, the
risk-tier scalar (Low 0, Medium ½, High 1), the Early/Late position slots,
and zeros in the remaining 116 slots. -/
def specFeatureVector (p : ProcessedState) (ctx : StrategicContext) :
    List ℚ :=
  [(p.player_cards.length : ℚ) / 13,
   (p.tricks_won : ℚ) / 13,
   (p.trick_number : ℚ) / 13,
   (p.played_cards.length : ℚ) / 4,
   (if lowercase p.game_mode = "kingdom" then 1 else 0),
   (if lowercase p.game_mode = "hearts" then 1 else 0),
   (if lowercase p.game_mode = "queens" then 1 else 0),
   (if lowercase p.game_mode = "diamonds" then 1 else 0),
   (if lowercase p.game_mode = "king_of_hearts" then 1 else 0),
   (if ctx.risk_level = "low" then 0
    else if ctx.risk_level = "medium" then 1/2 else 1),
   (if classify_position p.player_position p.played_cards.length =
        "early_position" then 1 else 0),
   (if classify_position p.player_position p.played_cards.length =
        "late_position" then 1 else 0)] ++
  List.replicate 116 0

/-- The derived context's risk level is the position dispatch. -/
theorem analyze_risk_level_eq (p : ProcessedState) :
    (analyze_strategic_context p).risk_level =
      (if classify_position p.player_position p.played_cards.length =
          "early_position" then "low" else "medium") := rfl

/-- The derived context only ever stores risk levels `"low"` or
`"medium"`. -/
theorem analyze_risk_level (p : ProcessedState) :
    (analyze_strategic_context p).risk_level = "low" ∨
    (analyze_strategic_context p).risk_level = "medium" := by
  rw [analyze_risk_level_eq]
  by_cases hp : classify_position p.player_position p.played_cards.length =
      "early_position"
  · rw [if_pos hp]
    exact Or.inl rfl
  · rw [if_neg hp]
    exact Or.inr rfl

/-- C7: for every validated request whose (lowercased) mode is one of the
five known modes, the feature vector built for the learned policy with the
derived strategic context has exactly 128 entries and equals the spec's
layout, and exactly one mode slot matches. -/
theorem C7_feature_vector (p : ProcessedState)
    (hm : lowercase p.game_mode ∈ game_modes_list) :
    (prepare_neural_network_input p (analyze_strategic_context p)).length
      = 128 ∧
    prepare_neural_network_input p (analyze_strategic_context p) =
      specFeatureVector p (analyze_strategic_context p) ∧
    (game_modes_list.filter (fun m => lowercase p.game_mode = m)).length
      = 1 := by
  have hone :
      (game_modes_list.filter (fun m => lowercase p.game_mode = m)).length
        = 1 := by
    simp only [game_modes_list, List.mem_cons, List.not_mem_nil, or_false] at hm
    rcases hm with hm | hm | hm | hm | hm <;> rw [hm] <;> decide
  refine ⟨?_, ?_, hone⟩
  · simp [prepare_neural_network_input, game_modes_list]
  · obtain hr | hr := analyze_risk_level p <;>
      simp [prepare_neural_network_input, specFeatureVector, game_modes_list,
        risk_level_to_scalar, hr]

/-- Witness for C7 at the sample request's processed state. -/
theorem C7_witness :
    lowercase proc_sample.game_mode ∈ game_modes_list ∧
    ((prepare_neural_network_input proc_sample
        (analyze_strategic_context proc_sample)).length = 128 ∧
     prepare_neural_network_input proc_sample
        (analyze_strategic_context proc_sample) =
       specFeatureVector proc_sample (analyze_strategic_context proc_sample) ∧
     (game_modes_list.filter
        (fun m => lowercase proc_sample.game_mode = m)).length = 1) :=
  ⟨by decide, C7_feature_vector proc_sample (by decide)⟩

/-- C8: for a request missing at least one required field, the validation
failure names the first missing field in required-field order (everything
earlier in `required_fields` is present), and the pipeline surfaces
`success=false` with the generic message and no decision fields. -/
theorem C8_missing_field (st : EnhancedTrexAI) (gs : RawRequest)
    (probs : List ℚ) (f : String) (h : firstMissing gs = some f) :
    (missingField gs f = true ∧
     ∃ pre post, required_fields = pre ++ f :: post ∧
       ∀ e ∈ pre, missingField gs e = false) ∧
    process_enhanced_game_state gs =
      ValidationResult.invalid ("Missing required field: " ++ f) ∧
    (get_ai_move st gs probs).1.success = false ∧
    (get_ai_move st gs probs).1.error = some ("Invalid game state") ∧
    (get_ai_move st gs probs).1.decision_type = none := by
  have hinv : process_enhanced_game_state gs =
      ValidationResult.invalid ("Missing required field: " ++ f) := by
    unfold process_enhanced_game_state
    rw [h]
  have hget := get_ai_move_invalid st gs probs _ hinv
  refine ⟨⟨List.find?_some h, find?_first _ _ _ h⟩, hinv, ?_, ?_, ?_⟩ <;>
    rw [hget] <;> rfl

/-- Witness for C8 at a request whose `game_mode` key is absent. -/
theorem C8_witness :
    firstMissing req_missing = some ("game_mode") ∧
    ((missingField req_missing ("game_mode") = true ∧
      ∃ pre post, required_fields = pre ++ "game_mode" :: post ∧
        ∀ e ∈ pre, missingField req_missing e = false) ∧
     process_enhanced_game_state req_missing =
       ValidationResult.invalid ("Missing required field: game_mode") ∧
     (get_ai_move ai0 req_missing []).1.success = false ∧
     (get_ai_move ai0 req_missing []).1.error = some ("Invalid game state") ∧
     (get_ai_move ai0 req_missing []).1.decision_type = none) :=
  ⟨by decide, C8_missing_field ai0 req_missing [] ("game_mode") (by decide)⟩

/-- C9 counterexample: a call that ends in an error response (missing
required field) still increments `decisions_made` — the claim says error
outcomes leave both counters unchanged. -/
theorem C9_counterexample :
    (get_ai_move
        { model_loaded := false, decisions_made := 5, confidence_total := 3 }
        req_missing []).1.success = false ∧
    (get_ai_move
        { model_loaded := false, decisions_made := 5, confidence_total := 3 }
        req_missing []).2.decisions_made = 6 := by
  refine ⟨by decide, by decide⟩

/-- C9 (amended): `decisions_made` is incremented exactly once on **every**
call, error outcomes included (the source increments it before
validation); `confidence_total` grows by the decision's confidence exactly
on non-error decisions and is unchanged on error outcomes.  The model flag
is never written by a call. -/
theorem C9_counters (st : EnhancedTrexAI) (gs : RawRequest)
    (probs : List ℚ) :
    (get_ai_move st gs probs).2.decisions_made = st.decisions_made + 1 ∧
    (get_ai_move st gs probs).2.confidence_total =
      st.confidence_total +
        (if (get_ai_move st gs probs).1.success = true
         then (get_ai_move st gs probs).1.confidence.getD 0 else 0) ∧
    (get_ai_move st gs probs).2.model_loaded = st.model_loaded := by
  cases hpr : process_enhanced_game_state gs with
  | invalid e =>
    rw [get_ai_move_invalid st gs probs e hpr]
    refine ⟨rfl, ?_, rfl⟩
    simp [create_error_response]
  | ok p =>
    rw [get_ai_move_ok st gs probs p hpr]
    by_cases hne : p.valid_cards = []
    · rw [fallback_empty _ p _ hne]
      refine ⟨rfl, ?_, rfl⟩
      simp [create_error_response]
    · obtain ⟨c, conf, heq, _, _⟩ :=
        fallback_success { st with decisions_made := st.decisions_made + 1 } p
          (analyze_strategic_context p) hne
      rw [heq]
      refine ⟨rfl, ?_, rfl⟩
      simp

/-- C10: every `success=false` response carries `best_card = 0` and
`confidence = 0` and has no `decision_type` or `strategic_context` key;
and there are error responses whose reported card 0 is not in the request's
legal-card list, so callers must gate on `success`. -/
theorem C10_error_response_shape (st : EnhancedTrexAI) (gs : RawRequest)
    (probs : List ℚ) :
    ((get_ai_move st gs probs).1.success = false →
      (get_ai_move st gs probs).1.best_card = some 0 ∧
      (get_ai_move st gs probs).1.confidence = some 0 ∧
      (get_ai_move st gs probs).1.decision_type = none ∧
      (get_ai_move st gs probs).1.strategic_context = none ∧
      (get_ai_move st gs probs).1.model_used = some ("Error Handler")) ∧
    ∃ req l, req.valid_cards = some l ∧ (0 : ℤ) ∉ l ∧
      (get_ai_move st req probs).1.success = false ∧
      (get_ai_move st req probs).1.best_card = some 0 := by
  constructor
  · intro hfail
    cases hpr : process_enhanced_game_state gs with
    | invalid e =>
      rw [get_ai_move_invalid st gs probs e hpr]
      exact ⟨rfl, rfl, rfl, rfl, rfl⟩
    | ok p =>
      rw [get_ai_move_ok st gs probs p hpr] at hfail ⊢
      by_cases hne : p.valid_cards = []
      · rw [fallback_empty _ p _ hne]
        exact ⟨rfl, rfl, rfl, rfl, rfl⟩
      · obtain ⟨c, conf, heq, _, _⟩ :=
          fallback_success { st with decisions_made := st.decisions_made + 1 }
            p (analyze_strategic_context p) hne
        rw [heq] at hfail
        exact absurd hfail (by simp)
  · have hinv : process_enhanced_game_state req_gate =
        ValidationResult.invalid ("Missing required field: game_mode") := by
      decide
    have hget := get_ai_move_invalid st req_gate probs _ hinv
    refine ⟨req_gate, [5], rfl, by decide, ?_, ?_⟩ <;> rw [hget] <;> rfl

/-- Witness for C10: a concrete error response with `best_card = 0`. -/
theorem C10_witness :
    (get_ai_move ai0 req_missing []).1.success = false ∧
    ((get_ai_move ai0 req_missing []).1.best_card = some 0 ∧
     (get_ai_move ai0 req_missing []).1.confidence = some 0 ∧
     (get_ai_move ai0 req_missing []).1.decision_type = none ∧
     (get_ai_move ai0 req_missing []).1.strategic_context = none ∧
     (get_ai_move ai0 req_missing []).1.model_used = some ("Error Handler")) :=
  ⟨by decide, (C10_error_response_shape ai0 req_missing []).1 (by decide)⟩

end TrexAI
